import Mathlib

/-!
# Verification of the CUDA numeric primitives layer

Shallow embedding of `src/primitives/gpu_cuda.cu` (CTranslate2): permutation
based transpose, top-k selection via sort-by-key, GEMM / batched GEMM bridged
onto a column-major BLAS, elementwise primitives, and the thread-local scratch
buffer cache.  Device buffers are modelled as Lean lists (element type `ℤ`
for data, `ℕ` for index payloads) or as flat address maps `ℕ → ℤ`.
-/

namespace GpuCuda

/-! ## Permutation-based transpose engine

`permute(x, y, size, perm_fun)` writes `y[i] = x[perm_fun(i)]` for every
`i < size` (a thrust permutation iterator copied to `y`). -/

/-- Embedding of `permute`: output element `i` is `x[f i]`; out-of-range reads
return the default `0` (they never occur for well-formed descriptors). -/
def permute (x : List ℤ) (size : ℕ) (f : ℕ → ℕ) : List ℤ :=
  (List.range size).map (fun i => x.getD (f i) 0)

/-- Embedding of the functor `perm_indices_2d::operator()` with fields
`_rows = rows`, `_cols = cols`. -/
def perm_indices_2d (rows cols : ℕ) (i : ℕ) : ℕ :=
  (i % rows) * cols + (i / rows)

/-- Embedding of `primitives<Device::CUDA>::transpose_2d`. -/
def transpose_2d (a : List ℤ) (dims : List ℕ) : List ℤ :=
  permute a (dims.getD 0 0 * dims.getD 1 0)
    (perm_indices_2d (dims.getD 0 0) (dims.getD 1 0))

/-- Embedding of the `perm_indices_3d` constructor and `operator()`:
source strides permuted by `perm`, output dims/strides from the permuted
shape, and the index formula `i0 * ps0 + i1 * ps1 + i2 * ps2`. -/
def perm_indices_3d (dims perm : List ℕ) (i : ℕ) : ℕ :=
  let a_stride : List ℕ := [dims.getD 1 0 * dims.getD 2 0, dims.getD 2 0, 1]
  let ps0 := a_stride.getD (perm.getD 0 0) 0
  let ps1 := a_stride.getD (perm.getD 1 0) 0
  let ps2 := a_stride.getD (perm.getD 2 0) 0
  let d1 := dims.getD (perm.getD 1 0) 0
  let d2 := dims.getD (perm.getD 2 0) 0
  let s0 := d1 * d2
  let s1 := d2
  (i / s0) * ps0 + (i / s1 % d1) * ps1 + (i % d2) * ps2

/-- Embedding of `primitives<Device::CUDA>::transpose_3d`. -/
def transpose_3d (a : List ℤ) (dims perm : List ℕ) : List ℤ :=
  permute a (dims.getD 0 0 * dims.getD 1 0 * dims.getD 2 0)
    (perm_indices_3d dims perm)

/-- Embedding of `perm_indices_4d::operator()` exactly as written in the
source, line 226: `i0 * _a_ps0 + i1 * _a_ps1 + i2 * _a_ps2 * i3 * _a_ps3`.
Note the last term: the fourth component is MULTIPLIED into the third term
(C++ precedence), not added as its own term. -/
def perm_indices_4d (dims perm : List ℕ) (i : ℕ) : ℕ :=
  let a_stride : List ℕ :=
    [dims.getD 1 0 * dims.getD 2 0 * dims.getD 3 0,
     dims.getD 2 0 * dims.getD 3 0, dims.getD 3 0, 1]
  let ps0 := a_stride.getD (perm.getD 0 0) 0
  let ps1 := a_stride.getD (perm.getD 1 0) 0
  let ps2 := a_stride.getD (perm.getD 2 0) 0
  let ps3 := a_stride.getD (perm.getD 3 0) 0
  let d1 := dims.getD (perm.getD 1 0) 0
  let d2 := dims.getD (perm.getD 2 0) 0
  let d3 := dims.getD (perm.getD 3 0) 0
  let s0 := d1 * d2 * d3
  let s1 := d2 * d3
  let s2 := d3
  (i / s0) * ps0 + (i / s1 % d1) * ps1 + (i / s2 % d2) * ps2 * (i % d3) * ps3

/-- Embedding of `primitives<Device::CUDA>::transpose_4d`. -/
def transpose_4d (a : List ℤ) (dims perm : List ℕ) : List ℤ :=
  permute a (dims.getD 0 0 * dims.getD 1 0 * dims.getD 2 0 * dims.getD 3 0)
    (perm_indices_4d dims perm)

/-- The corrected 4-D index formula (fourth term added, as the round-trip
property requires): used only to exhibit what the source deviates from. -/
def perm_indices_4d_fixed (dims perm : List ℕ) (i : ℕ) : ℕ :=
  let a_stride : List ℕ :=
    [dims.getD 1 0 * dims.getD 2 0 * dims.getD 3 0,
     dims.getD 2 0 * dims.getD 3 0, dims.getD 3 0, 1]
  let ps0 := a_stride.getD (perm.getD 0 0) 0
  let ps1 := a_stride.getD (perm.getD 1 0) 0
  let ps2 := a_stride.getD (perm.getD 2 0) 0
  let ps3 := a_stride.getD (perm.getD 3 0) 0
  let d1 := dims.getD (perm.getD 1 0) 0
  let d2 := dims.getD (perm.getD 2 0) 0
  let d3 := dims.getD (perm.getD 3 0) 0
  let s0 := d1 * d2 * d3
  let s1 := d2 * d3
  let s2 := d3
  (i / s0) * ps0 + (i / s1 % d1) * ps1 + (i / s2 % d2) * ps2 + (i % d3) * ps3

/-! ## Top-K selector and its thread-local scratch cache

`topk(x, val, ind, k, size)` keeps two `thread_local` scratch buffers `keys`
(element type) and `values` (index type) of capacity `alloc_size`; if
`size > alloc_size` both are freed and reallocated at exactly `size` elements
(uninitialized contents).  It then copies `x` into `keys`, writes `0..size-1`
into `values`, sorts the first `size` keys descending with
`thrust::sort_by_key` carrying `values` along, and copies the first `k`
entries of each buffer to the caller's outputs.  `thrust::sort_by_key` is not
a stable sort, so we model the sort as an arbitrary permutation `p` of
`0..size-1` whose application leaves the keys sorted in descending order. -/

/-- Thread-local scratch state of `topk`: `cap` is `alloc_size`, `keys` and
`vals` are the device contents of the two scratch buffers. -/
structure TopkState where
  cap : ℕ
  keys : List ℤ
  vals : List ℕ
  deriving DecidableEq

/-- The growth-only capacity update `if (size > alloc_size) alloc_size = size`
shared by `topk` and `gemm_batch`. -/
def scratchStep (cap req : ℕ) : ℕ :=
  if cap < req then req else cap

/-- Overwrite the first `(src.length)` elements of `dst` with `src`
(a device-to-device `copy` of `src.length` elements into a larger buffer). -/
def writeFirst (src dst : List α) : List α :=
  src ++ dst.drop src.length

/-- Apply the sort permutation `p` to the first `p.length` elements of a
buffer (how `sort_by_key` rearranges each of the two carried arrays). -/
def permuteFirst (p : List ℕ) (l : List α) (d : α) : List α :=
  (p.map fun i => l.getD i d) ++ l.drop p.length

/-- `p` is a permutation of `0..x.length-1` that sorts the keys `x` in
descending order: exactly the guarantee `thrust::sort_by_key` with
`thrust::greater` gives (it is not required to be stable). -/
def validSort (x : List ℤ) (p : List ℕ) : Prop :=
  p.Perm (List.range x.length)
    ∧ (p.map fun i => x.getD i 0).Sorted (· ≥ ·)

instance (x : List ℤ) (p : List ℕ) : Decidable (validSort x p) := by
  unfold validSort
  infer_instance

/-- Embedding of `primitives<Device::CUDA>::topk`, deterministic in the
chosen sort permutation `p` and in the uninitialized contents `junkK`,
`junkV` (each of length `x.length`) that a reallocation exposes.  Returns
`((values_out, indices_out), new_state)`.  There is no `k > size`
validation anywhere in the source. -/
def topkWithSort (s : TopkState) (x : List ℤ) (k : ℕ) (p : List ℕ)
    (junkK : List ℤ) (junkV : List ℕ) :
    (List ℤ × List ℕ) × TopkState :=
  let size := x.length
  let s1 : TopkState :=
    if s.cap < size then ⟨scratchStep s.cap size, junkK, junkV⟩ else s
  let keys1 := writeFirst x s1.keys
  let vals1 := writeFirst (List.range size) s1.vals
  let keys2 := permuteFirst p keys1 0
  let vals2 := permuteFirst p vals1 0
  ((keys2.take k, vals2.take k), ⟨s1.cap, keys2, vals2⟩)

/-- Capacity of the thread-local cache after a history of requested sizes,
starting from a fresh thread (capacity 0). -/
def scratchRun (sizes : List ℕ) : ℕ :=
  sizes.foldl scratchStep 0

/-- Stable tie-breaking, as the spec words it: among the returned indices,
whenever two point at equal values the smaller original index comes first. -/
def tieAscending (x : List ℤ) (ind : List ℕ) : Prop :=
  ind.Pairwise (fun i j => x.getD i 0 = x.getD j 0 → i ≤ j)

instance (x : List ℤ) (ind : List ℕ) : Decidable (tieAscending x ind) := by
  unfold tieAscending
  infer_instance

/-! ## GEMM / batched GEMM bridge

The element type is idealized as `ℤ` (exact arithmetic; the index mapping,
which is what the claims are about, is independent of the scalar type).
Matrices live in flat address maps `ℕ → ℤ`. -/

/-- Semantics of the external column-major BLAS routine `cublasSgemm`
(contract of the cuBLAS library, which is not part of this repository):
`C := alpha * op(A) * op(B) + beta * C` with `op(A) : M×K`, `op(B) : K×N`
and `C : M×N`, all column-major with leading dimensions `lda`, `ldb`,
`ldc`; entry `(i, j)` of `C` is stored at `i + j * ldc`. -/
def cublasGemmCM (tA tB : Bool) (M N K : ℕ) (alpha : ℤ) (A : ℕ → ℤ)
    (lda : ℕ) (B : ℕ → ℤ) (ldb : ℕ) (beta : ℤ) (C : ℕ → ℤ) (ldc : ℕ) :
    ℕ → ℤ :=
  fun idx =>
    let i := idx % ldc
    let j := idx / ldc
    if i < M ∧ j < N then
      alpha * (Finset.range K).sum (fun t =>
          (if tA then A (t + i * lda) else A (i + t * lda))
            * (if tB then B (j + t * ldb) else B (t + j * ldb)))
        + beta * C idx
    else C idx

/-- Embedding of `primitives<Device::CUDA>::gemm`: computes the leading
dimensions from the transpose flags, then calls the column-major routine
with the `a`/`b` operands, their flags, and `m`/`n` swapped. -/
def gemm (a b : ℕ → ℤ) (transpose_a transpose_b : Bool) (m n k : ℕ)
    (alpha beta : ℤ) (c : ℕ → ℤ) : ℕ → ℤ :=
  let lda := if transpose_a then m else k
  let ldb := if transpose_b then k else n
  let ldc := n
  cublasGemmCM transpose_b transpose_a n m k alpha b ldb a lda beta c ldc

/-- A device pointer `base + off` viewed as a new flat buffer. -/
def shiftBuf (f : ℕ → ℤ) (off : ℕ) : ℕ → ℤ :=
  fun idx => f (off + idx)

/-- Embedding of `primitives<Device::CUDA>::gemm_batch`: builds the pointer
tables `a + i*m*k`, `b + i*k*n`, `c + i*m*n` and issues the column-major
batched routine with the same swapped parameters as `gemm`; batch `i` of
the batched BLAS call behaves as `cublasSgemm` on the `i`-th pointer
triple, so the flat `c` buffer holds, in each `m*n`-sized slice below
`batch_size`, the column-major GEMM result for that slice. -/
def gemm_batch (a b : ℕ → ℤ) (transpose_a transpose_b : Bool)
    (batch_size m n k : ℕ) (alpha beta : ℤ) (c : ℕ → ℤ) : ℕ → ℤ :=
  let lda := if transpose_a then m else k
  let ldb := if transpose_b then k else n
  let ldc := n
  fun idx =>
    let i := idx / (m * n)
    if i < batch_size then
      cublasGemmCM transpose_b transpose_a n m k alpha
        (shiftBuf b (i * (k * n))) ldb (shiftBuf a (i * (m * k))) lda beta
        (shiftBuf c (i * (m * n))) ldc (idx % (m * n))
    else c idx

/-- Row-major GEMM, written from the spec's words: `c = alpha * op(a) *
op(b) + beta * c` with logical shapes `op(a): m×k`, `op(b): k×n`,
`c: m×n`, all row-major; entry `(i, j)` of the result. -/
def gemmSpecRM (a b : ℕ → ℤ) (transpose_a transpose_b : Bool) (m n k : ℕ)
    (alpha beta : ℤ) (c : ℕ → ℤ) (i j : ℕ) : ℤ :=
  alpha * (Finset.range k).sum (fun t =>
      (if transpose_a then a (t * m + i) else a (i * k + t))
        * (if transpose_b then b (j * k + t) else b (t * n + j)))
    + beta * c (i * n + j)

/-! ## Elementwise primitives

`add`/`sub` are `thrust::plus` / `thrust::minus` over `size` elements; on a
`w`-bit machine integer type the result wraps modulo `W = 2^w` (modelled by
an explicit `% W`); the idealized exact versions drop the reduction. -/

/-- `add(a, b, c, n)` on a machine integer type with modulus `W`. -/
def addMod (W : ℤ) (a b : List ℤ) : List ℤ :=
  List.zipWith (fun x y => (x + y) % W) a b

/-- `sub(a, b, c, n)` on a machine integer type with modulus `W`. -/
def subMod (W : ℤ) (a b : List ℤ) : List ℤ :=
  List.zipWith (fun x y => (x - y) % W) a b

/-- `add(a, b, c, n)` in idealized exact arithmetic. -/
def addExact (a b : List ℤ) : List ℤ :=
  List.zipWith (· + ·) a b

/-- `sub(a, b, c, n)` in idealized exact arithmetic. -/
def subExact (a b : List ℤ) : List ℤ :=
  List.zipWith (· - ·) a b

/-- `fill(x, a, n)`: set the first `n` elements of `x` to `a`
(`thrust::fill_n`). -/
def fill (x : List ℤ) (a : ℤ) (n : ℕ) : List ℤ :=
  List.replicate n a ++ x.drop n

/-- `copy(x, y, n)`: overwrite the first `n` elements of `y` with the first
`n` elements of `x` (`cudaMemcpyAsync`, device to device). -/
def copy (x y : List ℤ) (n : ℕ) : List ℤ :=
  x.take n ++ y.drop n

end GpuCuda

/-! ## C1: transpose round-trip -/

/-- **C1.** The claim states that for N ∈ {2,3,4} applying `transpose_Nd`
with `perm` and then with the inverse permutation reproduces the input, the
fourth 4-D term being ADDED into the running index.  The code instead
MULTIPLIES the fourth term (`i2 * ps2 * i3 * ps3`, line 226), so the 4-D
round trip fails: with dims = [1,1,2,2] and the identity permutation (its own
inverse), input [10,20,30,40] round-trips to [10,10,10,10].  The corrected
formula maps every output index to the right input index.  This theorem
evaluates the code at the failing input and contrasts it with the fixed
formula. -/
theorem C1_transpose4d_roundtrip_bug :
    GpuCuda.transpose_4d
        (GpuCuda.transpose_4d [10, 20, 30, 40] [1, 1, 2, 2] [0, 1, 2, 3])
        [1, 1, 2, 2] [0, 1, 2, 3] = [10, 10, 10, 10]
    ∧ GpuCuda.transpose_4d [10, 20, 30, 40] [1, 1, 2, 2] [0, 1, 2, 3]
        ≠ [10, 20, 30, 40]
    ∧ (GpuCuda.perm_indices_4d [1, 1, 2, 2] [0, 1, 2, 3] 1 = 0
        ∧ GpuCuda.perm_indices_4d_fixed [1, 1, 2, 2] [0, 1, 2, 3] 1 = 1) := by
  refine ⟨by decide, by decide, by decide, by decide⟩

/-! ## Shared lemmas about the top-k embedding -/

namespace GpuCuda

theorem map_getD_range_self (x : List ℤ) :
    (List.range x.length).map (fun i => x.getD i 0) = x := by
  apply List.ext_getElem
  · simp
  · intro i h1 h2
    simp [List.getD_eq_getElem, h2]

theorem validSort_mem_lt (x : List ℤ) (p : List ℕ) (hp : validSort x p)
    {i : ℕ} (hi : i ∈ p) : i < x.length := by
  have := hp.1.mem_iff.mp hi
  simpa using this

theorem validSort_length (x : List ℤ) (p : List ℕ) (hp : validSort x p) :
    p.length = x.length := by
  simpa using hp.1.length_eq

/-- Under a valid sort permutation, the permuted keys are exactly the
descending sort of `x`. -/
theorem sorted_map_of_validSort (x : List ℤ) (p : List ℕ)
    (hp : validSort x p) :
    p.map (fun i => x.getD i 0) = x.insertionSort (· ≥ ·) := by
  apply List.eq_of_perm_of_sorted (r := (· ≥ ·))
  · exact ((hp.1.map _).trans (by rw [map_getD_range_self])).trans
      (List.perm_insertionSort _ x).symm
  · exact hp.2
  · exact List.sorted_insertionSort _ x

theorem permuted_keys_eq (x : List ℤ) (p : List ℕ) (buf : List ℤ)
    (hp : validSort x p) :
    p.map (fun i => (writeFirst x buf).getD i 0)
      = x.insertionSort (· ≥ ·) := by
  rw [← sorted_map_of_validSort x p hp]
  apply List.map_congr_left
  intro i hi
  exact List.getD_append _ _ _ _ (validSort_mem_lt x p hp hi)

theorem permuted_vals_eq (x : List ℤ) (p : List ℕ) (buf : List ℕ)
    (hp : validSort x p) :
    p.map (fun i => (writeFirst (List.range x.length) buf).getD i 0) = p := by
  apply List.ext_getElem
  · simp
  · intro j h1 h2
    rw [List.getElem_map]
    have hlt : p[j] < x.length := validSort_mem_lt x p hp (List.getElem_mem _)
    unfold writeFirst
    rw [List.getD_append _ _ _ _ (by simpa using hlt),
      List.getD_eq_getElem _ _ (by simpa using hlt), List.getElem_range]

/-- Shape of the outputs of `topk` for `k ≤ size`: the values are the first
`k` entries of the descending sort of `x`, the indices the first `k`
entries of the sort permutation — independent of the incoming scratch
state and of the uninitialized buffer contents. -/
theorem topk_out_eq (s : TopkState) (x : List ℤ) (k : ℕ) (p : List ℕ)
    (junkK : List ℤ) (junkV : List ℕ) (hp : validSort x p)
    (hk : k ≤ x.length) :
    (topkWithSort s x k p junkK junkV).1
      = ((x.insertionSort (· ≥ ·)).take k, p.take k) := by
  have hplen : p.length = x.length := validSort_length x p hp
  have hsortlen : (x.insertionSort (· ≥ ·)).length = x.length :=
    (List.perm_insertionSort _ x).length_eq
  have hcomp : ∀ (bufK : List ℤ) (bufV : List ℕ),
      (permuteFirst p (writeFirst x bufK) 0).take k
          = (x.insertionSort (· ≥ ·)).take k
        ∧ (permuteFirst p (writeFirst (List.range x.length) bufV) 0).take k
          = p.take k := by
    intro bufK bufV
    constructor
    · unfold permuteFirst
      rw [permuted_keys_eq x p bufK hp,
        List.take_append_of_le_length (by rw [hsortlen]; exact hk)]
    · unfold permuteFirst
      rw [permuted_vals_eq x p bufV hp,
        List.take_append_of_le_length (by rw [hplen]; exact hk)]
  by_cases hc : s.cap < x.length
  · have h1 : (topkWithSort s x k p junkK junkV).1
        = ((permuteFirst p (writeFirst x junkK) 0).take k,
           (permuteFirst p (writeFirst (List.range x.length) junkV) 0).take k) := by
      simp [topkWithSort, hc]
    rw [h1, (hcomp junkK junkV).1, (hcomp junkK junkV).2]
  · have h1 : (topkWithSort s x k p junkK junkV).1
        = ((permuteFirst p (writeFirst x s.keys) 0).take k,
           (permuteFirst p (writeFirst (List.range x.length) s.vals) 0).take k) := by
      simp [topkWithSort, hc]
    rw [h1, (hcomp s.keys s.vals).1, (hcomp s.keys s.vals).2]

end GpuCuda

namespace GpuCuda

theorem drop_append_len (A B : List α) (n : ℕ) (h : A.length = n) :
    (A ++ B).drop n = B := by
  subst h
  exact List.drop_left A B

theorem scratchStep_eq_max (cap req : ℕ) : scratchStep cap req = max cap req := by
  unfold scratchStep
  split <;> omega

end GpuCuda

/-! ## C2: top-k with k > n -/

/-- **C2 counterexample.** The claim states that `topk` with `k > n` fails
with `InvalidArgument` before any device work: no scratch allocation and no
output mutation.  The source contains no such check: at `x = [1,2]`, `k = 3`
on a fresh thread the call grows the scratch capacity from 0 to 2 and writes
both caller outputs (the model truncates the out-of-bounds tail of the
3-element copy-out). -/
theorem C2_topk_no_error_cex :
    (GpuCuda.topkWithSort ⟨0, [], []⟩ [1, 2] 3 [1, 0] [0, 0] [0, 0]).2.cap = 2
      ∧ (GpuCuda.topkWithSort ⟨0, [], []⟩ [1, 2] 3 [1, 0] [0, 0] [0, 0]).1.1
          = [2, 1]
      ∧ (GpuCuda.topkWithSort ⟨0, [], []⟩ [1, 2] 3 [1, 0] [0, 0] [0, 0]).1.2
          = [1, 0] := by
  decide

/-- **C2 (amended).** `topk` performs no `k > n` validation and raises no
error: with `k ≥ n` and `n` above the cached capacity it still reallocates
the scratch buffers (capacity becomes `n`) and still writes the outputs,
returning the full descending sort of `x` with the full sort permutation
(the out-of-bounds tail of the `k`-element device copy is truncated in the
model). -/
theorem C2_topk_no_validation (x : List ℤ) (k : ℕ) (p : List ℕ)
    (s : GpuCuda.TopkState) (junkK : List ℤ) (junkV : List ℕ)
    (hp : GpuCuda.validSort x p) (hk : x.length ≤ k)
    (hcap : s.cap < x.length)
    (hjk : junkK.length = x.length) (hjv : junkV.length = x.length) :
    (GpuCuda.topkWithSort s x k p junkK junkV).2.cap = x.length
      ∧ (GpuCuda.topkWithSort s x k p junkK junkV).1.1
          = x.insertionSort (· ≥ ·)
      ∧ (GpuCuda.topkWithSort s x k p junkK junkV).1.2 = p := by
  have hplen := GpuCuda.validSort_length x p hp
  have hsortlen : (x.insertionSort (· ≥ ·)).length = x.length :=
    (List.perm_insertionSort _ x).length_eq
  have hwk : GpuCuda.writeFirst x junkK = x ++ [] := by
    unfold GpuCuda.writeFirst
    rw [← hjk, List.drop_length]
  have hwv : GpuCuda.writeFirst (List.range x.length) junkV
      = List.range x.length ++ [] := by
    unfold GpuCuda.writeFirst
    rw [List.length_range, ← hjv, List.drop_length]
  refine ⟨?_, ?_, ?_⟩
  · simp [GpuCuda.topkWithSort, hcap, GpuCuda.scratchStep]
  · have h1 : (GpuCuda.topkWithSort s x k p junkK junkV).1.1
        = (GpuCuda.permuteFirst p (GpuCuda.writeFirst x junkK) 0).take k := by
      simp [GpuCuda.topkWithSort, hcap]
    rw [h1]
    unfold GpuCuda.permuteFirst
    rw [GpuCuda.permuted_keys_eq x p junkK hp, hwk, List.append_nil, hplen,
      List.drop_length, List.append_nil,
      List.take_of_length_le (by rw [hsortlen]; exact hk)]
  · have h1 : (GpuCuda.topkWithSort s x k p junkK junkV).1.2
        = (GpuCuda.permuteFirst p
            (GpuCuda.writeFirst (List.range x.length) junkV) 0).take k := by
      simp [GpuCuda.topkWithSort, hcap]
    rw [h1]
    unfold GpuCuda.permuteFirst
    have hdr : (List.range x.length).drop x.length = [] := by simp
    rw [GpuCuda.permuted_vals_eq x p junkV hp, hwv, List.append_nil, hplen,
      hdr, List.append_nil,
      List.take_of_length_le (by rw [hplen]; exact hk)]

/-- Witness for `C2_topk_no_validation` at `x = [1,2]`, `k = 3` on a fresh
thread state. -/
theorem C2_topk_no_validation_witness :
    GpuCuda.validSort [1, 2] [1, 0] ∧ ([1, 2] : List ℤ).length ≤ 3
      ∧ (GpuCuda.topkWithSort ⟨0, [], []⟩ [1, 2] 3 [1, 0] [0, 0] [0, 0]).2.cap
          = ([1, 2] : List ℤ).length :=
  ⟨by decide, by decide,
    (C2_topk_no_validation [1, 2] 3 [1, 0] ⟨0, [], []⟩ [0, 0] [0, 0]
      (by decide) (by decide) (by decide) (by decide) (by decide)).1⟩

namespace GpuCuda

theorem getD_take (l : List α) (d : α) (j k : ℕ) (h : j < k) :
    (l.take k).getD j d = l.getD j d := by
  rw [List.getD_eq_getElem?_getD, List.getD_eq_getElem?_getD,
    List.getElem?_take, if_pos h]

theorem getD_map_getD (p : List ℕ) (x : List ℤ) (j : ℕ)
    (hj : j < p.length) :
    (p.map fun i => x.getD i 0).getD j 0 = x.getD (p.getD j 0) 0 := by
  rw [List.getD_eq_getElem _ _ (by simpa using hj), List.getElem_map,
    List.getD_eq_getElem p 0 hj]

end GpuCuda

/-! ## C3: top-k functional contract -/

/-- **C3 counterexample.** The claim asserts stable tie-breaking: equal
selected values come out ordered by ascending original index.  The source
sorts with `thrust::sort_by_key`, which is not a stable sort, so nothing
forces that order: on `x = [1, 1]`, `k = 2` the permutation `[1, 0]` is a
legitimate result of the unstable descending sort, and the returned index
list `[1, 0]` violates the tie rule. -/
theorem C3_topk_stable_tie_cex :
    ¬ (∀ (x : List ℤ) (k : ℕ) (p : List ℕ) (s : GpuCuda.TopkState)
        (junkK : List ℤ) (junkV : List ℕ),
        GpuCuda.validSort x p → k ≤ x.length →
        GpuCuda.tieAscending x
          ((GpuCuda.topkWithSort s x k p junkK junkV).1.2)) := by
  intro h
  have := h [1, 1] 2 [1, 0] ⟨0, [], []⟩ [0, 0] [0, 0] (by decide) (by decide)
  exact absurd this (by decide)

/-- **C3 (amended).** For `k ≤ n`, `topk` returns the `k` largest elements
of `x` in descending order (the first `k` entries of the descending sort)
together with their original positions: the index list is the prefix of the
sort permutation, its entries are pairwise distinct positions inside `x`,
and entry `j` of the values equals `x` at entry `j` of the indices.  The
tie order among equal values is whatever the (unstable) sort produced, not
necessarily ascending original index. -/
theorem C3_topk_largest_descending (x : List ℤ) (k : ℕ) (p : List ℕ)
    (s : GpuCuda.TopkState) (junkK : List ℤ) (junkV : List ℕ)
    (hp : GpuCuda.validSort x p) (hk : k ≤ x.length) :
    (GpuCuda.topkWithSort s x k p junkK junkV).1.1
        = (x.insertionSort (· ≥ ·)).take k
      ∧ (GpuCuda.topkWithSort s x k p junkK junkV).1.2 = p.take k
      ∧ ((GpuCuda.topkWithSort s x k p junkK junkV).1.1).Sorted (· ≥ ·)
      ∧ ((GpuCuda.topkWithSort s x k p junkK junkV).1.2).Nodup
      ∧ (∀ i ∈ (GpuCuda.topkWithSort s x k p junkK junkV).1.2, i < x.length)
      ∧ ∀ j, j < k →
          ((GpuCuda.topkWithSort s x k p junkK junkV).1.1).getD j 0
            = x.getD
                (((GpuCuda.topkWithSort s x k p junkK junkV).1.2).getD j 0)
                0 := by
  have hout := GpuCuda.topk_out_eq s x k p junkK junkV hp hk
  have hplen := GpuCuda.validSort_length x p hp
  have hv : (GpuCuda.topkWithSort s x k p junkK junkV).1.1
      = (x.insertionSort (· ≥ ·)).take k := congrArg Prod.fst hout
  have hi : (GpuCuda.topkWithSort s x k p junkK junkV).1.2 = p.take k :=
    congrArg Prod.snd hout
  have hnodup : p.Nodup := hp.1.nodup_iff.mpr (List.nodup_range _)
  refine ⟨hv, hi, ?_, ?_, ?_, ?_⟩
  · rw [hv]
    exact List.Pairwise.sublist (List.take_sublist k _)
      (List.sorted_insertionSort _ x)
  · rw [hi]
    exact (List.take_sublist k p).nodup hnodup
  · intro i hmem
    rw [hi] at hmem
    exact GpuCuda.validSort_mem_lt x p hp (List.take_subset k p hmem)
  · intro j hj
    rw [hv, hi, GpuCuda.getD_take _ _ _ _ hj, GpuCuda.getD_take _ _ _ _ hj,
      ← GpuCuda.sorted_map_of_validSort x p hp]
    exact GpuCuda.getD_map_getD p x j (by omega)

/-- Witness for `C3_topk_largest_descending` at `x = [5, 2]`, `k = 1`. -/
theorem C3_topk_largest_descending_witness :
    GpuCuda.validSort [5, 2] [0, 1] ∧ (1 : ℕ) ≤ ([5, 2] : List ℤ).length
      ∧ (GpuCuda.topkWithSort ⟨0, [], []⟩ [5, 2] 1 [0, 1] [0, 0] [0, 0]).1.1
          = (([5, 2] : List ℤ).insertionSort (· ≥ ·)).take 1 :=
  ⟨by decide, by decide,
    (C3_topk_largest_descending [5, 2] 1 [0, 1] ⟨0, [], []⟩ [0, 0] [0, 0]
      (by decide) (by decide)).1⟩

/-! ## C4: top-k concrete case -/

/-- **C4.** For `x = [3,1,4,1,5,9,2,6]`, `k = 3`, `n = 8`, every execution
of `topk` (any permutation the unstable sort may produce) returns
`values = [9,6,5]` and `indices = [5,7,4]`: the three largest values are
pairwise distinct, so the sort permutation is forced on its first three
entries. -/
theorem C4_topk_concrete (p : List ℕ) (s : GpuCuda.TopkState)
    (junkK : List ℤ) (junkV : List ℕ)
    (hp : GpuCuda.validSort [3, 1, 4, 1, 5, 9, 2, 6] p) :
    (GpuCuda.topkWithSort s [3, 1, 4, 1, 5, 9, 2, 6] 3 p junkK junkV).1
      = ([9, 6, 5], [5, 7, 4]) := by
  have hsort : (([3, 1, 4, 1, 5, 9, 2, 6] : List ℤ).insertionSort (· ≥ ·))
      = [9, 6, 5, 4, 3, 2, 1, 1] := by decide
  have hmap := GpuCuda.sorted_map_of_validSort [3, 1, 4, 1, 5, 9, 2, 6] p hp
  have hplen : p.length = 8 := GpuCuda.validSort_length _ p hp
  rw [GpuCuda.topk_out_eq s _ 3 p junkK junkV hp (by decide), hsort]
  rw [hsort] at hmap
  rcases p with _ | ⟨p0, _ | ⟨p1, _ | ⟨p2, rest⟩⟩⟩
  · simp at hplen
  · simp at hplen
  · simp at hplen
  · have h0 : p0 < 8 := GpuCuda.validSort_mem_lt _ _ hp (by simp)
    have h1 : p1 < 8 := GpuCuda.validSort_mem_lt _ _ hp (by simp)
    have h2 : p2 < 8 := GpuCuda.validSort_mem_lt _ _ hp (by simp)
    simp only [List.map_cons, List.cons.injEq] at hmap
    obtain ⟨e0, e1, e2, -⟩ := hmap
    have hp0 : p0 = 5 := by interval_cases p0 <;> revert e0 <;> decide
    have hp1 : p1 = 7 := by interval_cases p1 <;> revert e1 <;> decide
    have hp2 : p2 = 4 := by interval_cases p2 <;> revert e2 <;> decide
    subst hp0 hp1 hp2
    simp

/-- Witness for `C4_topk_concrete` at the sort permutation
`[5, 7, 4, 2, 0, 6, 1, 3]`. -/
theorem C4_topk_concrete_witness :
    GpuCuda.validSort [3, 1, 4, 1, 5, 9, 2, 6] [5, 7, 4, 2, 0, 6, 1, 3]
      ∧ (GpuCuda.topkWithSort ⟨0, [], []⟩ [3, 1, 4, 1, 5, 9, 2, 6] 3
          [5, 7, 4, 2, 0, 6, 1, 3]
          [0, 0, 0, 0, 0, 0, 0, 0] [0, 0, 0, 0, 0, 0, 0, 0]).1
        = ([9, 6, 5], [5, 7, 4]) :=
  ⟨by decide,
    C4_topk_concrete [5, 7, 4, 2, 0, 6, 1, 3] ⟨0, [], []⟩
      [0, 0, 0, 0, 0, 0, 0, 0] [0, 0, 0, 0, 0, 0, 0, 0] (by decide)⟩

/-! ## C10: top-k is independent of the scratch cache state -/

/-- **C10.** The outputs of `topk` depend only on `(x, k, size)` and on the
sort execution, never on the thread-local scratch state: for any two
incoming states (arising from any earlier call histories, with any stale
buffer contents and any uninitialized reallocation contents) and the same
sort permutation, the returned values and indices coincide. -/
theorem C10_topk_ignores_scratch_state (s s' : GpuCuda.TopkState)
    (x : List ℤ) (k : ℕ) (p : List ℕ) (junkK junkK' : List ℤ)
    (junkV junkV' : List ℕ) (hp : GpuCuda.validSort x p)
    (hk : k ≤ x.length) :
    (GpuCuda.topkWithSort s x k p junkK junkV).1
      = (GpuCuda.topkWithSort s' x k p junkK' junkV').1 := by
  rw [GpuCuda.topk_out_eq s x k p junkK junkV hp hk,
    GpuCuda.topk_out_eq s' x k p junkK' junkV' hp hk]

/-- Witness for `C10_topk_ignores_scratch_state`: a fresh thread state
versus a state left over from a larger earlier call, same `x`, `k`. -/
theorem C10_topk_ignores_scratch_state_witness :
    GpuCuda.validSort [2, 7] [1, 0] ∧ (1 : ℕ) ≤ ([2, 7] : List ℤ).length
      ∧ (GpuCuda.topkWithSort ⟨0, [], []⟩ [2, 7] 1 [1, 0] [0, 0] [0, 0]).1
          = (GpuCuda.topkWithSort ⟨5, [8, 8, 8, 8, 8], [9, 9, 9, 9, 9]⟩
              [2, 7] 1 [1, 0] [3, 3] [4, 4]).1 :=
  ⟨by decide, by decide,
    C10_topk_ignores_scratch_state ⟨0, [], []⟩
      ⟨5, [8, 8, 8, 8, 8], [9, 9, 9, 9, 9]⟩ [2, 7] 1 [1, 0] [0, 0] [3, 3]
      [0, 0] [4, 4] (by decide) (by decide)⟩

/-! ## C7: scratch cache growth monotonicity -/

/-- **C7.** The scratch capacity is governed by
`if (size > alloc_size) alloc_size = size`: after any call history the
capacity is the maximum size seen so far (`foldl max 0`), a single call
never shrinks it, a request within capacity keeps both the capacity and
the existing buffer (the stale tail of the scratch index buffer is
preserved, i.e. no reallocation), and a request above capacity sets the
capacity to exactly the requested size; `topk`'s post-state capacity is
exactly this update applied to the incoming capacity. -/
theorem C7_scratch_cache_monotone (sizes : List ℕ) (cap req : ℕ)
    (s : GpuCuda.TopkState) (x : List ℤ) (k : ℕ) (p : List ℕ)
    (junkK : List ℤ) (junkV : List ℕ) :
    GpuCuda.scratchRun sizes = sizes.foldl max 0
      ∧ cap ≤ GpuCuda.scratchStep cap req
      ∧ (req ≤ cap → GpuCuda.scratchStep cap req = cap)
      ∧ (cap < req → GpuCuda.scratchStep cap req = req)
      ∧ (GpuCuda.topkWithSort s x k p junkK junkV).2.cap
          = GpuCuda.scratchStep s.cap x.length
      ∧ (GpuCuda.validSort x p → x.length ≤ s.cap →
          (GpuCuda.topkWithSort s x k p junkK junkV).2.vals.drop x.length
            = s.vals.drop x.length) := by
  refine ⟨?_, ?_, ?_, ?_, ?_, ?_⟩
  · have hstep : GpuCuda.scratchStep = max := by
      funext a b
      exact GpuCuda.scratchStep_eq_max a b
    rw [GpuCuda.scratchRun, hstep]
  · rw [GpuCuda.scratchStep_eq_max]
    omega
  · intro h
    rw [GpuCuda.scratchStep_eq_max]
    omega
  · intro h
    rw [GpuCuda.scratchStep_eq_max]
    omega
  · by_cases hc : s.cap < x.length <;>
      simp [GpuCuda.topkWithSort, GpuCuda.scratchStep, hc]
  · intro hp hle
    have hc : ¬ s.cap < x.length := not_lt.mpr hle
    have hplen := GpuCuda.validSort_length x p hp
    have h1 : (GpuCuda.topkWithSort s x k p junkK junkV).2.vals
        = GpuCuda.permuteFirst p
            (GpuCuda.writeFirst (List.range x.length) s.vals) 0 := by
      simp [GpuCuda.topkWithSort, hc]
    rw [h1]
    unfold GpuCuda.permuteFirst GpuCuda.writeFirst
    rw [GpuCuda.drop_append_len _ _ x.length (by simp [hplen]), hplen,
      List.length_range,
      GpuCuda.drop_append_len _ _ x.length (by simp)]

/-- Witness for `C7_scratch_cache_monotone`: a request of size 3 against
capacity 5 keeps the capacity, and a within-capacity `topk` call keeps the
stale tail of the scratch index buffer. -/
theorem C7_scratch_cache_monotone_witness :
    (3 : ℕ) ≤ 5 ∧ GpuCuda.scratchStep 5 3 = 5
      ∧ (GpuCuda.topkWithSort ⟨2, [0, 0], [7, 7]⟩ [4] 1 [0] [9] [9]).2.vals.drop
          ([4] : List ℤ).length = ([7, 7] : List ℕ).drop ([4] : List ℤ).length :=
  ⟨by decide,
    (C7_scratch_cache_monotone [] 5 3 ⟨2, [0, 0], [7, 7]⟩ [4] 1 [0] [9]
      [9]).2.2.1 (by decide),
    (C7_scratch_cache_monotone [] 5 3 ⟨2, [0, 0], [7, 7]⟩ [4] 1 [0] [9]
      [9]).2.2.2.2.2 (by decide) (by decide)⟩

/-! ## C5: GEMM row-major contract via the column-major bridge -/

/-- **C5.** `gemm` computes `c = alpha * op(a) * op(b) + beta * c` for
row-major operands with logical shapes `op(a): m×k`, `op(b): k×n`,
`c: m×n`: the source's mapping onto the column-major BLAS call — operands
and transpose flags swapped and `m`/`n` swapped, with no data movement —
agrees, at every logical entry `(i, j)` of `c`, with the row-major
definition written from the spec. -/
theorem C5_gemm_row_major_correct (a b : ℕ → ℤ) (ta tb : Bool)
    (m n k : ℕ) (alpha beta : ℤ) (c : ℕ → ℤ) (i j : ℕ)
    (hi : i < m) (hj : j < n) :
    GpuCuda.gemm a b ta tb m n k alpha beta c (i * n + j)
      = GpuCuda.gemmSpecRM a b ta tb m n k alpha beta c i j := by
  have hn : 0 < n := by omega
  have hmod : (i * n + j) % n = j := by
    rw [mul_comm, Nat.mul_add_mod]
    exact Nat.mod_eq_of_lt hj
  have hdiv : (i * n + j) / n = i := by
    rw [mul_comm, Nat.mul_add_div hn, Nat.div_eq_of_lt hj]
    omega
  simp only [GpuCuda.gemm, GpuCuda.cublasGemmCM, GpuCuda.gemmSpecRM]
  rw [hmod, hdiv, if_pos ⟨hj, hi⟩]
  congr 2
  apply Finset.sum_congr rfl
  intro t ht
  cases ta <;> cases tb <;> simp only [Bool.false_eq_true, if_false, if_true] <;>
    rw [mul_comm] <;> congr 1 <;> congr 1 <;> omega

/-- Witness for `C5_gemm_row_major_correct` at `m = n = k = 1`,
`(i, j) = (0, 0)`, constant operand buffers. -/
theorem C5_gemm_row_major_correct_witness :
    (0 : ℕ) < 1 ∧ (0 : ℕ) < 1
      ∧ GpuCuda.gemm (fun _ => 2) (fun _ => 3) false false 1 1 1 7 11
          (fun _ => 5) (0 * 1 + 0)
        = GpuCuda.gemmSpecRM (fun _ => 2) (fun _ => 3) false false 1 1 1 7 11
            (fun _ => 5) 0 0 :=
  ⟨by decide, by decide,
    C5_gemm_row_major_correct (fun _ => 2) (fun _ => 3) false false 1 1 1 7 11
      (fun _ => 5) 0 0 (by decide) (by decide)⟩

/-! ## C6: batched GEMM equals independent per-slice GEMMs -/

/-- **C6.** `gemm_batch` over `batch_size` matrix pairs agrees, on every
element of every output slice `i < batch_size`, with the independent `gemm`
call on the slices `a + i*m*k`, `b + i*k*n`, `c + i*m*n` with the same
flags, dimensions, `alpha` and `beta`. -/
theorem C6_gemm_batch_slicewise (a b : ℕ → ℤ) (ta tb : Bool)
    (batch_size m n k : ℕ) (alpha beta : ℤ) (c : ℕ → ℤ) (bi off : ℕ)
    (hbi : bi < batch_size) (hoff : off < m * n) :
    GpuCuda.gemm_batch a b ta tb batch_size m n k alpha beta c
        (bi * (m * n) + off)
      = GpuCuda.gemm (GpuCuda.shiftBuf a (bi * (m * k)))
          (GpuCuda.shiftBuf b (bi * (k * n))) ta tb m n k alpha beta
          (GpuCuda.shiftBuf c (bi * (m * n))) off := by
  have hmn : 0 < m * n := by omega
  have hdiv : (bi * (m * n) + off) / (m * n) = bi := by
    rw [mul_comm, Nat.mul_add_div hmn, Nat.div_eq_of_lt hoff]
    omega
  have hmod : (bi * (m * n) + off) % (m * n) = off := by
    rw [mul_comm, Nat.mul_add_mod]
    exact Nat.mod_eq_of_lt hoff
  simp only [GpuCuda.gemm_batch, GpuCuda.gemm]
  rw [hdiv, hmod, if_pos hbi]

/-- Witness for `C6_gemm_batch_slicewise` at `batch_size = 2`,
`m = n = k = 1`, slice 1, offset 0. -/
theorem C6_gemm_batch_slicewise_witness :
    (1 : ℕ) < 2 ∧ (0 : ℕ) < 1 * 1
      ∧ GpuCuda.gemm_batch (fun p => p) (fun p => p) false false 2 1 1 1 1 0
          (fun p => p) (1 * (1 * 1) + 0)
        = GpuCuda.gemm (GpuCuda.shiftBuf (fun p => p) (1 * (1 * 1)))
            (GpuCuda.shiftBuf (fun p => p) (1 * (1 * 1))) false false 1 1 1 1 0
            (GpuCuda.shiftBuf (fun p => p) (1 * (1 * 1))) 0 :=
  ⟨by decide, by decide,
    C6_gemm_batch_slicewise (fun p => p) (fun p => p) false false 2 1 1 1 1 0
      (fun p => p) 1 0 (by decide) (by decide)⟩

/-! ## C8: add/sub round-trip -/

namespace GpuCuda

theorem emod_add_sub_cancel (W x y : ℤ) (hx : 0 ≤ x) (hxW : x < W) :
    ((x + y) % W - y) % W = x := by
  conv_lhs =>
    rw [Int.sub_emod, Int.emod_emod_of_dvd _ dvd_rfl, ← Int.sub_emod]
  rw [add_sub_cancel_right]
  exact Int.emod_eq_of_lt hx hxW

theorem subMod_addMod_cancel (W : ℤ) (a b : List ℤ)
    (hlen : a.length = b.length) (hr : ∀ z ∈ a, 0 ≤ z ∧ z < W) :
    subMod W (addMod W a b) b = a := by
  induction a generalizing b with
  | nil =>
    cases b with
    | nil => rfl
    | cons y ys => simp at hlen
  | cons x xs ih =>
    cases b with
    | nil => simp at hlen
    | cons y ys =>
      have h1 := hr x (List.mem_cons_self x xs)
      have h2 : ∀ z ∈ xs, 0 ≤ z ∧ z < W :=
        fun z hz => hr z (List.mem_cons_of_mem x hz)
      have hlen2 : xs.length = ys.length := by simpa using hlen
      simp only [addMod, subMod, List.zipWith_cons_cons, List.cons.injEq]
      exact ⟨emod_add_sub_cancel W x y h1.1 h1.2, ih ys hlen2 h2⟩

theorem subExact_addExact_cancel (u v : List ℤ)
    (hlen : u.length = v.length) :
    subExact (addExact u v) v = u := by
  induction u generalizing v with
  | nil =>
    cases v with
    | nil => rfl
    | cons y ys => simp at hlen
  | cons x xs ih =>
    cases v with
    | nil => simp at hlen
    | cons y ys =>
      have hlen2 : xs.length = ys.length := by simpa using hlen
      simp only [addExact, subExact, List.zipWith_cons_cons, List.cons.injEq]
      exact ⟨by ring, ih ys hlen2⟩

end GpuCuda

/-- **C8.** `add(a, b, c, n)` followed by `sub(c, b, c2, n)` restores `a`
element for element, for every size `n` (including 0 and 1): exactly on a
machine integer type of any modulus `W` with canonical (in-range) inputs,
even through wraparound of the intermediate sum, and exactly in the
idealized arithmetic that models the floating-point types without
rounding. -/
theorem C8_add_sub_roundtrip (W : ℤ) (a b u v : List ℤ)
    (hlen : a.length = b.length) (hr : ∀ z ∈ a, 0 ≤ z ∧ z < W)
    (hlen2 : u.length = v.length) :
    GpuCuda.subMod W (GpuCuda.addMod W a b) b = a
      ∧ GpuCuda.subExact (GpuCuda.addExact u v) v = u :=
  ⟨GpuCuda.subMod_addMod_cancel W a b hlen hr,
    GpuCuda.subExact_addExact_cancel u v hlen2⟩

/-- Witness for `C8_add_sub_roundtrip` at `W = 256` with a wrapping sum
(`255 + 1`). -/
theorem C8_add_sub_roundtrip_witness :
    ([255, 0] : List ℤ).length = ([1, 7] : List ℤ).length
      ∧ ([5] : List ℤ).length = ([9] : List ℤ).length
      ∧ GpuCuda.subMod 256 (GpuCuda.addMod 256 [255, 0] [1, 7]) [1, 7]
          = [255, 0]
      ∧ GpuCuda.subExact (GpuCuda.addExact [5] [9]) [9] = [5] :=
  ⟨by decide, by decide,
    (C8_add_sub_roundtrip 256 [255, 0] [1, 7] [5] [9] (by decide) (by decide)
      (by decide)).1,
    (C8_add_sub_roundtrip 256 [255, 0] [1, 7] [5] [9] (by decide) (by decide)
      (by decide)).2⟩

/-! ## C9: fill then copy round-trip -/

namespace GpuCuda

theorem copy_copy_cancel (x y : List ℤ) (n : ℕ) (h : n ≤ x.length) :
    copy (copy x y n) x n = x := by
  unfold copy
  rw [List.take_append_of_le_length (by simp [List.length_take]; omega),
    List.take_take, min_self, List.take_append_drop]

end GpuCuda

/-- **C9.** `fill(x, a, n)` sets every one of the first `n` elements of `x`
to `a`, and the subsequent `copy(x, y, n)` then `copy(y, x, n)` leaves the
filled buffer unchanged. -/
theorem C9_fill_copy_roundtrip (x y : List ℤ) (a : ℤ) (n : ℕ) :
    (∀ i, i < n → (GpuCuda.fill x a n).getD i 0 = a)
      ∧ GpuCuda.copy (GpuCuda.copy (GpuCuda.fill x a n) y n)
          (GpuCuda.fill x a n) n = GpuCuda.fill x a n := by
  have hlenf : n ≤ (GpuCuda.fill x a n).length := by
    unfold GpuCuda.fill
    simp
  constructor
  · intro i hi
    unfold GpuCuda.fill
    rw [List.getD_append _ _ _ _ (by simpa using hi),
      List.getD_eq_getElem _ _ (by simpa using hi), List.getElem_replicate]
  · exact GpuCuda.copy_copy_cancel _ y n hlenf

/-- Witness for `C9_fill_copy_roundtrip` at `x = [1,2,3]`, `a = 7`,
`n = 2`. -/
theorem C9_fill_copy_roundtrip_witness :
    (0 : ℕ) < 2 ∧ (GpuCuda.fill [1, 2, 3] 7 2).getD 0 0 = 7
      ∧ GpuCuda.copy (GpuCuda.copy (GpuCuda.fill [1, 2, 3] 7 2) [4, 5] 2)
          (GpuCuda.fill [1, 2, 3] 7 2) 2 = GpuCuda.fill [1, 2, 3] 7 2 :=
  ⟨by decide,
    (C9_fill_copy_roundtrip [1, 2, 3] [4, 5] 7 2).1 0 (by decide),
    (C9_fill_copy_roundtrip [1, 2, 3] [4, 5] 7 2).2⟩
